import Mathlib

/-!
Verification of the contact-synchronisation core of `ms-studio-client-syncer`
(`src/index.js`, first variant, together with `src/models/Client.js` and
`src/models/SyncLog.js`).

The development shallowly embeds the reconciliation pipeline:
`parseVCard` (record parser), the first-seen-wins deduplication pass,
the diff planning (`toInsert` / `toUpdate` separation), and the execution
and audit-logging control flow of `syncToMongo` and `fetchContacts`.
External collaborators (the CardDAV client, MongoDB driver calls and the
`SyncLog.create` audit writes) are abstracted as an environment `Env`
that fixes the outcome of each side-effecting call; the functions return
the list of store effects the run performs, from which the written
`sync_runs` audit records can be read off.
-/

/-- Canonical contact, as produced by `parseVCard`: `{ full_name, phone }`. -/
structure Contact where
  full_name : String
  phone : String
deriving DecidableEq, Repr

/-- One `SyncLog` document (`src/models/SyncLog.js`): counts, success flag
and optional error message.  `skipped` is an integer because the source
computes it as a JavaScript subtraction `contacts.length - insertedCount -
updatedCount`. -/
structure SyncLogRec where
  total_contacts : Nat
  inserted : Nat
  updated : Nat
  skipped : Int
  success : Bool
  error_message : Option String
deriving DecidableEq, Repr

/- ## Parser (`normalizePhone`, `parseVCard`, src/index.js lines 20-93) -/

/-- The characters matched by JavaScript regex `\s` and removed by
`String.prototype.trim` (WhiteSpace and LineTerminator code points). -/
def jsWhitespaceChars : List Char :=
  [' ', '\t', '\n', '\r', '\u000B', '\u000C'] ++
    ([0xA0, 0x1680, 0x2000, 0x2001, 0x2002, 0x2003, 0x2004, 0x2005, 0x2006,
      0x2007, 0x2008, 0x2009, 0x200A, 0x2028, 0x2029, 0x202F, 0x205F, 0x3000,
      0xFEFF].map Char.ofNat)

def isJsWhitespace (c : Char) : Bool := jsWhitespaceChars.contains c

/-- JavaScript `String.prototype.trim` on a character list: drop leading and
trailing whitespace. -/
def jsTrimList (cs : List Char) : List Char :=
  ((cs.dropWhile isJsWhitespace).reverse.dropWhile isJsWhitespace).reverse

/-- JavaScript `String.prototype.trim`. -/
def jsTrim (s : String) : String := (jsTrimList s.toList).asString

/-- A character removed by `normalizePhone`: regex `[\s\-\(\)]`. -/
def stripPhoneChar (c : Char) : Bool :=
  isJsWhitespace c || c == '-' || c == '(' || c == ')'

/-- `normalizePhone` (src/index.js lines 20-23): `null` for a falsy argument,
otherwise strip whitespace and `- ( )` and trim. -/
def normalizePhone (phone : String) : Option String :=
  if phone = "" then none
  else some (jsTrim (phone.toList.filter (fun c => !stripPhoneChar c)).asString)

/-- Case-insensitive character comparison against a lower-case letter,
as JavaScript regex flag `i` does. -/
def lcIs (c : Char) (d : Char) : Bool := c.toLower == d

/-- Does the line begin with `TEL` (case-insensitively)?  Matches regex
`^TEL` under flag `i`. -/
def telAt : List Char → Bool
  | t :: e :: l :: _ => lcIs t 't' && lcIs e 'e' && lcIs l 'l'
  | _ => false

/-- Strip a grouped-property `item<digits>.` marker: regex group
`(item\d+\.)` matched case-insensitively at the start of the line.
Returns the remainder after the dot, or `none` when the group does not
match. -/
def itemDigitsDot (cs : List Char) : Option (List Char) :=
  match cs with
  | i :: t :: e :: m :: rest =>
    if lcIs i 'i' && lcIs t 't' && lcIs e 'e' && lcIs m 'm' then
      if (rest.takeWhile Char.isDigit).isEmpty then none
      else
        match rest.dropWhile Char.isDigit with
        | '.' :: tail => some tail
        | _ => none
    else none
  | _ => none

/-- `trimmedLine.match(/^(item\d+\.)?TEL/i)` succeeds. -/
def isTelLine (cs : List Char) : Bool :=
  telAt cs ||
    (match itemDigitsDot cs with
     | some rest => telAt rest
     | none => false)

/-- JavaScript line-terminator code points, which regex `.` does not match. -/
def jsLineTerm (c : Char) : Bool :=
  c == '\n' || c == '\r' || c == Char.ofNat 0x2028 || c == Char.ofNat 0x2029

/-- `trimmedLine.match(/:(.+)$/)`: capture everything after the first colon
whose tail is non-empty and free of line terminators (leftmost match of the
anchored pattern). -/
def colonRest : List Char → Option (List Char)
  | [] => none
  | c :: cs =>
    if c == ':' && !cs.isEmpty && cs.all (fun d => !jsLineTerm d) then some cs
    else colonRest cs

/-- JavaScript `vcardData.split("\\n")` modelled on character lists:
split at every newline character, keeping empty segments. -/
def splitLines : List Char → List (List Char)
  | [] => [[]]
  | c :: rest =>
    if c == '\n' then [] :: splitLines rest
    else
      match splitLines rest with
      | [] => [[c]]
      | l :: ls => (c :: l) :: ls

/-- JavaScript `line.startsWith("FN:")` (case-sensitive, on the untrimmed
line). -/
def isFnLine : List Char → Bool
  | 'F' :: 'N' :: ':' :: _ => true
  | _ => false

/-- The final `if (!full_name || !phone) return null` of `parseVCard`:
a contact is produced only when both fields are set and non-empty
(JavaScript truthiness of strings). -/
def parseFinish : Option String → Option String → Option Contact
  | some f, some p => if f = "" ∨ p = "" then none else some ⟨f, p⟩
  | _, _ => none

/-- The line loop of `parseVCard` (src/index.js lines 72-86), carrying the
`full_name` accumulator.  An `FN:`-prefixed line (untrimmed, case-sensitive)
overwrites the accumulator with `line.substring(3).trim()`; the first
trimmed line matching `^(item\\d+\\.)?TEL/i` that also has a `:(.+)$` value
sets the phone and breaks the loop. -/
def parseLoop : List (List Char) → Option String → Option Contact
  | [], fn => parseFinish fn none
  | line :: rest, fn =>
    let trimmedLine := jsTrimList line
    let fn' := if isFnLine line then some (jsTrimList (line.drop 3)).asString else fn
    if isTelLine trimmedLine then
      match colonRest trimmedLine with
      | some m => parseFinish fn' (normalizePhone m.asString)
      | none => parseLoop rest fn'
    else parseLoop rest fn'

/-- `parseVCard` (src/index.js lines 65-93): split on newlines, scan for the
display name and the first phone-like value; returns `none` rather than
failing. -/
def parseVCard (vcardData : String) : Option Contact :=
  parseLoop (splitLines vcardData.toList) none

/- ## Deduplicator (src/index.js lines 101-108) -/

/-- The `uniqueContactsMap` pass with the set of phone keys already seen:
`if (!uniqueContactsMap.has(contact.phone)) uniqueContactsMap.set(...)`,
read back in insertion order by `Array.from(map.values())`. -/
def dedupeGo : List Contact → List String → List Contact
  | [], _ => []
  | c :: cs, seen =>
    if c.phone ∈ seen then dedupeGo cs seen
    else c :: dedupeGo cs (c.phone :: seen)

/-- First-seen-wins deduplication by `phone`. -/
def dedupe (contacts : List Contact) : List Contact := dedupeGo contacts []

/- ## Diff planning and execution (`syncToMongo`, src/index.js lines 96-208) -/

/-- A JavaScript `Map` built from key/value pairs (`new Map(pairs)`):
`get` returns the value of the last pair carrying the key. -/
def mapGet (ps : List (String × String)) (k : String) : Option String :=
  (ps.reverse.find? (fun p => p.1 == k)).map (fun p => p.2)

/-- Planning, insert half (src/index.js lines 125-131): the unique contacts
whose phone is absent from the `existingContactsMap` snapshot, in order. -/
def toInsertOf (uniq : List Contact) (ex : List (String × String)) : List Contact :=
  uniq.filter (fun c => (mapGet ex c.phone).isNone)

/-- One `updateOne` directive of the bulk update:
`{ filter: { phone }, update: { $set: { full_name } } }`. -/
structure UpdateOp where
  phone : String
  full_name : String
deriving DecidableEq, Repr

/-- Planning, update half (src/index.js lines 132-146): the unique contacts
whose phone is present in the snapshot with a different stored name. -/
def toUpdateOf (uniq : List Contact) (ex : List (String × String)) : List UpdateOp :=
  uniq.filterMap (fun c =>
    match mapGet ex c.phone with
    | some fn => if fn = c.full_name then none else some ⟨c.phone, c.full_name⟩
    | none => none)

/-- Outcome of the `ClientModel.insertMany(toInsert, { ordered: false })`
call, as the `catch` block observes it: either success, or an error value
carrying `err.code`, optionally `err.insertedDocs` (its length), and
`err.message`. -/
inductive InsertOutcome where
  | ok
  | errRes (code : Nat) (insertedDocs : Option Nat) (msg : String)
deriving DecidableEq, Repr

/-- Outcome of the `ClientModel.bulkWrite(toUpdate, { ordered: false })`
call: `result.modifiedCount`, or a thrown error message. -/
inductive UpdateOutcome where
  | ok (modifiedCount : Nat)
  | err (msg : String)
deriving Repr

/-- The environment fixing each external call's outcome for one run:
the `ClientModel.find` snapshot (or its failure), the bulk insert and
bulk update results, and whether each of the two `SyncLog.create` calls
(success record, failure record) throws. -/
structure Env where
  findRes : Except String (List (String × String))
  insertRes : InsertOutcome
  updateRes : UpdateOutcome
  logOkRes : Option String
  logFailRes : Option String

/-- A store effect performed by a run.  `logCreate rec ok` is an attempted
`SyncLog.create(rec)`; the flag records whether the write succeeded. -/
inductive Effect where
  | readClients
  | insertMany (docs : List Contact)
  | bulkWriteUpdates (ops : List UpdateOp)
  | logCreate (rec : SyncLogRec) (ok : Bool)
deriving DecidableEq, Repr

/-- The insert step (src/index.js lines 153-169): `insertedCount` stays `0`
for an empty batch; a successful `insertMany` reports the whole batch; an
error with `err.code === 11000 && err.insertedDocs` (JavaScript truthiness:
the array may be empty but must be present) recovers
`err.insertedDocs.length`; any other error is re-thrown. -/
def insertStep (toInsert : List Contact) (res : InsertOutcome) : Except String Nat :=
  if toInsert.isEmpty then Except.ok 0
  else
    match res with
    | InsertOutcome.ok => Except.ok toInsert.length
    | InsertOutcome.errRes code docs msg =>
      match docs with
      | some k => if code = 11000 then Except.ok k else Except.error msg
      | none => Except.error msg

/-- The update step (src/index.js lines 171-176): `updatedCount` stays `0`
for an empty batch, otherwise it is `result.modifiedCount`; a thrown error
propagates. -/
def updateStep (toUpdate : List UpdateOp) (res : UpdateOutcome) : Except String Nat :=
  if toUpdate.isEmpty then Except.ok 0
  else
    match res with
    | UpdateOutcome.ok n => Except.ok n
    | UpdateOutcome.err msg => Except.error msg

/-- The body of `syncToMongo`'s `try` block up to the count computation
(src/index.js lines 100-176): dedupe, snapshot read, planning and the two
bulk steps.  Returns the effects performed together with either the
`(insertedCount, updatedCount)` pair or the first thrown error message. -/
def runCore (contacts : List Contact) (env : Env) :
    List Effect × Except String (Nat × Nat) :=
  let uniqueContacts := dedupe contacts
  match env.findRes with
  | Except.error msg => ([Effect.readClients], Except.error msg)
  | Except.ok existingList =>
    let toInsert := toInsertOf uniqueContacts existingList
    let toUpdate := toUpdateOf uniqueContacts existingList
    let insEff : List Effect :=
      if toInsert.isEmpty then [] else [Effect.insertMany toInsert]
    match insertStep toInsert env.insertRes with
    | Except.error msg => (Effect.readClients :: insEff, Except.error msg)
    | Except.ok insertedCount =>
      let updEff : List Effect :=
        if toUpdate.isEmpty then [] else [Effect.bulkWriteUpdates toUpdate]
      match updateStep toUpdate env.updateRes with
      | Except.error msg =>
        (Effect.readClients :: (insEff ++ updEff), Except.error msg)
      | Except.ok updatedCount =>
        (Effect.readClients :: (insEff ++ updEff),
         Except.ok (insertedCount, updatedCount))

/-- The success-path `SyncLog.create` document (src/index.js lines 184-190):
`total_contacts` and `skipped` both use `contacts.length`, the count
*before* deduplication. -/
def successRec (contacts : List Contact) (i u : Nat) : SyncLogRec :=
  { total_contacts := contacts.length
    inserted := i
    updated := u
    skipped := (contacts.length : Int) - (i : Int) - (u : Int)
    success := true
    error_message := none }

/-- The failure-path `SyncLog.create` document (src/index.js lines 196-203):
zeroed counts, `success: false` and the caught error's message. -/
def failRec (contacts : List Contact) (msg : String) : SyncLogRec :=
  { total_contacts := contacts.length
    inserted := 0
    updated := 0
    skipped := 0
    success := false
    error_message := some msg }

/-- The `catch` block's guarded audit write (src/index.js lines 195-206):
the failure record is attempted; if that `SyncLog.create` itself throws,
the secondary error is only logged — nothing further happens. -/
def failLog (contacts : List Contact) (env : Env) (msg : String) : List Effect :=
  match env.logFailRes with
  | none => [Effect.logCreate (failRec contacts msg) true]
  | some _ => [Effect.logCreate (failRec contacts msg) false]

/-- `syncToMongo` (src/index.js lines 96-208): empty input returns at once
with no effect; otherwise the core runs, a success record is written when
everything (including the audit write) succeeds, and any caught error leads
to the guarded failure-record write.  The function never propagates an
error. -/
def syncToMongo (contacts : List Contact) (env : Env) : List Effect :=
  if contacts.length = 0 then []
  else
    match runCore contacts env with
    | (effs, Except.error msg) => effs ++ failLog contacts env msg
    | (effs, Except.ok (i, u)) =>
      match env.logOkRes with
      | none => effs ++ [Effect.logCreate (successRec contacts i u) true]
      | some msg =>
        effs ++ Effect.logCreate (successRec contacts i u) false ::
          failLog contacts env msg

/- ## Orchestrator (`fetchContacts`, src/index.js lines 26-62) -/

/-- Behaviour of the external CardDAV fetch loop for one run:
it either throws before any record was retrieved, throws part-way through
(after the records in `raws` were already fetched and parsed), or yields
all raw records. -/
inductive FetchOutcome where
  | failBeforeData (msg : String)
  | failDuring (raws : List String) (msg : String)
  | ok (raws : List String)

/-- `fetchContacts` (src/index.js lines 26-62): the single `try/catch`
wraps client creation, the fetch/parse loop and `syncToMongo`; any error
thrown before `syncToMongo` is only logged, so no store effect happens.
On a full fetch the parsed contacts (`if (parsed) contacts.push(parsed)`)
are handed to `syncToMongo`. -/
def fetchContacts (fo : FetchOutcome) (env : Env) : List Effect :=
  match fo with
  | FetchOutcome.failBeforeData _ => []
  | FetchOutcome.failDuring _ _ => []
  | FetchOutcome.ok raws => syncToMongo (raws.filterMap parseVCard) env

/-- The `sync_runs` documents actually persisted by a list of effects. -/
def writtenLogs (effs : List Effect) : List SyncLogRec :=
  effs.filterMap (fun e =>
    match e with
    | Effect.logCreate r true => some r
    | _ => none)

/-- All attempted failure-record audit writes (`success = false`), each with
the flag telling whether the write went through. -/
def failLogAttempts (effs : List Effect) : List (SyncLogRec × Bool) :=
  effs.filterMap (fun e =>
    match e with
    | Effect.logCreate r ok => if r.success = false then some (r, ok) else none
    | _ => none)

/-- Driver-contract bounds on the environment: a duplicate-key recovery
count never exceeds the submitted insert batch, and `modifiedCount` never
exceeds the number of update directives sent. -/
def envValidB (contacts : List Contact) (env : Env) : Bool :=
  match env.findRes with
  | Except.error _ => true
  | Except.ok ex =>
    (match env.insertRes with
     | InsertOutcome.errRes _ (some k) _ =>
       Nat.ble k (toInsertOf (dedupe contacts) ex).length
     | _ => true) &&
    (match env.updateRes with
     | UpdateOutcome.ok n => Nat.ble n (toUpdateOf (dedupe contacts) ex).length
     | _ => true)

/-- Does a line carry a phone value for the parser: it matches the TEL
pattern and has a non-empty value after a colon? -/
def hasTelValue (l : List Char) : Bool :=
  isTelLine (jsTrimList l) && (colonRest (jsTrimList l)).isSome

/- ## Parser lemmas -/

lemma parseFinish_fst_none (ph : Option String) : parseFinish none ph = none := by
  cases ph <;> rfl

lemma parseFinish_snd_none (fn : Option String) : parseFinish fn none = none := by
  cases fn <;> rfl

lemma parseFinish_eq_some {fn ph : Option String} {c : Contact}
    (h : parseFinish fn ph = some c) : c.full_name ≠ "" ∧ c.phone ≠ "" := by
  rcases fn with _ | f
  · rw [parseFinish_fst_none] at h
    exact Option.noConfusion h
  · rcases ph with _ | p
    · rw [parseFinish_snd_none] at h
      exact Option.noConfusion h
    · rw [show parseFinish (some f) (some p) =
          if f = "" ∨ p = "" then none else some ⟨f, p⟩ from rfl] at h
      split at h
      · exact Option.noConfusion h
      · rename_i hne
        push_neg at hne
        cases h
        exact ⟨hne.1, hne.2⟩

lemma parseLoop_no_fn : ∀ (lines : List (List Char)),
    (∀ l ∈ lines, isFnLine l = false) → parseLoop lines none = none
  | [], _ => rfl
  | line :: rest, h => by
    have hl : isFnLine line = false := h line (List.mem_cons_self _ _)
    have ih := parseLoop_no_fn rest (fun l hm => h l (List.mem_cons_of_mem _ hm))
    unfold parseLoop
    simp only [hl, Bool.false_eq_true, if_false]
    split
    · split
      · exact parseFinish_fst_none _
      · exact ih
    · exact ih

lemma parseLoop_no_tel : ∀ (lines : List (List Char)) (fn : Option String),
    (∀ l ∈ lines, isTelLine (jsTrimList l) = false) → parseLoop lines fn = none
  | [], fn, _ => parseFinish_snd_none fn
  | line :: rest, fn, h => by
    have hl : isTelLine (jsTrimList line) = false := h line (List.mem_cons_self _ _)
    have ih := fun f => parseLoop_no_tel rest f
      (fun l hm => h l (List.mem_cons_of_mem _ hm))
    unfold parseLoop
    simp only [hl, Bool.false_eq_true, if_false]
    exact ih _

lemma parseLoop_eq_some : ∀ (lines : List (List Char)) (fn : Option String)
    (c : Contact), parseLoop lines fn = some c →
    c.full_name ≠ "" ∧ c.phone ≠ ""
  | [], _, _, h => parseFinish_eq_some h
  | line :: rest, fn, c, h => by
    simp only [parseLoop] at h
    split at h
    · split at h
      · exact parseFinish_eq_some h
      · exact parseLoop_eq_some rest _ c h
    · exact parseLoop_eq_some rest _ c h

lemma parseLoop_tel_first : ∀ (pre : List (List Char)) (telLine : List Char)
    (post : List (List Char)),
    (∀ l ∈ pre, hasTelValue l = false ∧ isFnLine l = false) →
    isFnLine telLine = false → hasTelValue telLine = true →
    parseLoop (pre ++ telLine :: post) none = none
  | [], telLine, post, _, hfn, htel => by
    have htel' := htel
    unfold hasTelValue at htel'
    rw [Bool.and_eq_true] at htel'
    rcases Option.isSome_iff_exists.mp htel'.2 with ⟨m, hm⟩
    rw [List.nil_append]
    unfold parseLoop
    simp only [hfn, Bool.false_eq_true, if_false, htel'.1, eq_self_iff_true,
      if_true, hm]
    exact parseFinish_fst_none _
  | p :: pre, telLine, post, hpre, hfn, htel => by
    have hp := hpre p (List.mem_cons_self _ _)
    have hp1 := hp.1
    have ih := parseLoop_tel_first pre telLine post
      (fun l hm => hpre l (List.mem_cons_of_mem _ hm)) hfn htel
    rw [List.cons_append]
    unfold parseLoop
    simp only [hp.2, Bool.false_eq_true, if_false]
    rcases hv : isTelLine (jsTrimList p) with _ | _
    · simp only [hv, Bool.false_eq_true, if_false]
      exact ih
    · rcases hcc : colonRest (jsTrimList p) with _ | m
      · simp only [hv, eq_self_iff_true, if_true, hcc]
        exact ih
      · exfalso
        unfold hasTelValue at hp1
        rw [hv, hcc] at hp1
        simp at hp1

lemma isTelLine_of_telAt {cs : List Char} (h : telAt cs = true) :
    isTelLine cs = true := by
  unfold isTelLine
  rw [h, Bool.true_or]

lemma digits_split (rest : List Char) : ∀ (ds : List Char),
    (∀ d ∈ ds, Char.isDigit d = true) →
    (ds ++ '.' :: rest).takeWhile Char.isDigit = ds ∧
      (ds ++ '.' :: rest).dropWhile Char.isDigit = '.' :: rest
  | [], _ => by
    constructor <;> simp [List.takeWhile, List.dropWhile]
  | d :: ds, h => by
    have hd : Char.isDigit d = true := h d (List.mem_cons_self _ _)
    have ih := digits_split rest ds (fun x hx => h x (List.mem_cons_of_mem _ hx))
    constructor
    · rw [List.cons_append, List.takeWhile_cons, hd, if_pos rfl, ih.1]
    · rw [List.cons_append, List.dropWhile_cons, hd, if_pos rfl, ih.2]

lemma itemDigitsDot_eq_some {i t e m : Char} {ds : List Char} (rest : List Char)
    (hi : lcIs i 'i' = true) (ht : lcIs t 't' = true)
    (he : lcIs e 'e' = true) (hm : lcIs m 'm' = true)
    (hne : ds ≠ []) (hd : ∀ d ∈ ds, Char.isDigit d = true) :
    itemDigitsDot (i :: t :: e :: m :: (ds ++ '.' :: rest)) = some rest := by
  have hs := digits_split rest ds hd
  unfold itemDigitsDot
  simp only [hi, ht, he, hm, Bool.and_self, if_true, hs.1, hs.2]
  rw [if_neg (by simp [List.isEmpty_iff, hne])]

/- ## Claim C7, C8, C9 -/

/-- C7 counterexample: the claim says the display-name matching is
case-insensitive like the phone-like matching, but the parser checks
`line.startsWith("FN:")` case-sensitively: a record whose display name is
given as `fn:` yields no contact, while the same record with `FN:` parses. -/
theorem C7_counterexample :
    parseVCard "fn:Alice\nTEL:555" = none ∧
    parseVCard "FN:Alice\nTEL:555" = some ⟨"Alice", "555"⟩ := by
  constructor <;> decide

/-- C7 (amended): the matching of the phone-like field is case-insensitive
and tolerant of an `item<digits>.` vendor prefix (itself case-insensitive),
but the display-name matching requires the exact case-sensitive prefix
`FN:` at the start of the raw line, with no vendor-prefix tolerance. -/
theorem C7_tel_insensitive_fn_exact :
    (∀ rest : List Char,
       isTelLine ('T' :: 'E' :: 'L' :: rest) = true ∧
       isTelLine ('t' :: 'e' :: 'l' :: rest) = true ∧
       isTelLine ('T' :: 'e' :: 'l' :: rest) = true ∧
       isTelLine ('t' :: 'E' :: 'L' :: rest) = true) ∧
    (∀ (ds rest : List Char), ds ≠ [] → (∀ d ∈ ds, Char.isDigit d = true) →
       telAt rest = true →
       isTelLine ('i' :: 't' :: 'e' :: 'm' :: (ds ++ '.' :: rest)) = true ∧
       isTelLine ('I' :: 'T' :: 'E' :: 'M' :: (ds ++ '.' :: rest)) = true) ∧
    parseVCard "fn:Alice\nTEL:555" = none ∧
    parseVCard "item1.FN:Alice\nTEL:555" = none ∧
    parseVCard "FN:Alice\nItem23.tel:555-12" = some ⟨"Alice", "55512"⟩ := by
  refine ⟨fun rest => ⟨rfl, rfl, rfl, rfl⟩,
    fun ds rest hne hd htel => ?_, by decide, by decide, by decide⟩
  constructor <;>
    · unfold isTelLine
      rw [itemDigitsDot_eq_some rest (by decide) (by decide) (by decide)
        (by decide) hne hd]
      simp only [htel, Bool.or_true]

/-- C7 witness for the amended theorem: concrete instances of the
prefix-tolerance part. -/
theorem C7_witness :
    isTelLine ('i' :: 't' :: 'e' :: 'm' :: (['1'] ++ '.' :: ['T', 'E', 'L'])) = true ∧
    isTelLine ('I' :: 'T' :: 'E' :: 'M' :: (['1'] ++ '.' :: ['T', 'E', 'L'])) = true :=
  C7_tel_insensitive_fn_exact.2.1 ['1'] ['T', 'E', 'L'] (by decide) (by decide)
    (by decide)

/-- C8: a record with no `FN:` line, or with no phone-like line, parses to
"no contact"; and every parsed contact has a non-empty name and a non-empty
normalized phone, so a missing or empty-normalizing value also yields "no
contact".  The embedding is total, so no input propagates a failure. -/
theorem C8_malformed_no_contact (raw : String) :
    ((∀ l ∈ splitLines raw.toList, isFnLine l = false) → parseVCard raw = none) ∧
    ((∀ l ∈ splitLines raw.toList, isTelLine (jsTrimList l) = false) →
       parseVCard raw = none) ∧
    (∀ c : Contact, parseVCard raw = some c →
       c.full_name ≠ "" ∧ c.phone ≠ "") :=
  ⟨fun h => parseLoop_no_fn _ h,
   fun h => parseLoop_no_tel _ none h,
   fun c hc => parseLoop_eq_some _ none c hc⟩

/-- C8 witness: the three conjuncts applied at concrete records. -/
theorem C8_witness :
    parseVCard "TEL:123" = none ∧
    parseVCard "FN:Alice" = none ∧
    ((⟨"Alice", "1"⟩ : Contact).full_name ≠ "" ∧
      (⟨"Alice", "1"⟩ : Contact).phone ≠ "") :=
  ⟨(C8_malformed_no_contact "TEL:123").1 (by decide),
   (C8_malformed_no_contact "FN:Alice").2.1 (by decide),
   (C8_malformed_no_contact "FN:Alice\nTEL:1").2.2 ⟨"Alice", "1"⟩ (by decide)⟩

/-- C9: when the first phone-like line carrying a value precedes every
`FN:` line of the record, the scan breaks at that line with the name still
unset, so the record parses to "no contact" even though a display-name line
is present later. -/
theorem C9_tel_breaks_before_fn (raw : String) (pre : List (List Char))
    (telLine : List Char) (post : List (List Char))
    (hsplit : splitLines raw.toList = pre ++ telLine :: post)
    (hpre : ∀ l ∈ pre, hasTelValue l = false ∧ isFnLine l = false)
    (hfn : isFnLine telLine = false)
    (htel : hasTelValue telLine = true)
    (hpost : ∃ l ∈ post, isFnLine l = true) :
    parseVCard raw = none := by
  unfold parseVCard
  rw [hsplit]
  exact parseLoop_tel_first pre telLine post hpre hfn htel

/-- C9 witness: a record whose phone-like line precedes its name line. -/
theorem C9_witness : parseVCard "TEL:555\nFN:Alice" = none :=
  C9_tel_breaks_before_fn "TEL:555\nFN:Alice" []
    ['T', 'E', 'L', ':', '5', '5', '5'] [['F', 'N', ':', 'A', 'l', 'i', 'c', 'e']]
    (by decide) (by decide) (by decide) (by decide) (by decide)

/- ## Deduplicator lemmas -/

lemma dedupeGo_sublist : ∀ (l : List Contact) (seen : List String),
    (dedupeGo l seen).Sublist l
  | [], _ => List.Sublist.refl []
  | c :: cs, seen => by
    by_cases h : c.phone ∈ seen
    · simp only [dedupeGo, if_pos h]
      exact (dedupeGo_sublist cs seen).cons c
    · simp only [dedupeGo, if_neg h]
      exact (dedupeGo_sublist cs (c.phone :: seen)).cons₂ c

lemma dedupeGo_not_mem_seen : ∀ (l : List Contact) (seen : List String)
    (c : Contact), c ∈ dedupeGo l seen → c.phone ∉ seen
  | [], _, _, h => absurd h (List.not_mem_nil _)
  | d :: cs, seen, c, h => by
    by_cases hd : d.phone ∈ seen
    · rw [dedupeGo, if_pos hd] at h
      exact dedupeGo_not_mem_seen cs seen c h
    · rw [dedupeGo, if_neg hd] at h
      rcases List.mem_cons.mp h with rfl | h2
      · exact hd
      · have := dedupeGo_not_mem_seen cs (d.phone :: seen) c h2
        exact fun hc => this (List.mem_cons_of_mem _ hc)

lemma dedupeGo_keys_nodup : ∀ (l : List Contact) (seen : List String),
    ((dedupeGo l seen).map Contact.phone).Nodup
  | [], _ => List.nodup_nil
  | d :: cs, seen => by
    by_cases hd : d.phone ∈ seen
    · rw [dedupeGo, if_pos hd]
      exact dedupeGo_keys_nodup cs seen
    · rw [dedupeGo, if_neg hd]
      rw [List.map_cons, List.nodup_cons]
      refine ⟨fun hmem => ?_, dedupeGo_keys_nodup cs (d.phone :: seen)⟩
      rcases List.mem_map.mp hmem with ⟨c, hc, hph⟩
      exact dedupeGo_not_mem_seen cs (d.phone :: seen) c hc
        (hph ▸ List.mem_cons_self _ _)

lemma dedupeGo_first : ∀ (l : List Contact) (seen : List String)
    (c : Contact), c ∈ dedupeGo l seen →
    l.find? (fun x => x.phone == c.phone) = some c
  | [], _, _, h => absurd h (List.not_mem_nil _)
  | d :: cs, seen, c, h => by
    by_cases hd : d.phone ∈ seen
    · rw [dedupeGo, if_pos hd] at h
      have hc : c.phone ∉ seen := dedupeGo_not_mem_seen cs seen c h
      have hne : (fun x => x.phone == c.phone) d = false := by
        simp only [beq_eq_false_iff_ne, ne_eq]
        intro he
        exact hc (he ▸ hd)
      rw [List.find?_cons_of_neg _ (by simp [hne])]
      exact dedupeGo_first cs seen c h
    · rw [dedupeGo, if_neg hd] at h
      rcases List.mem_cons.mp h with rfl | h2
      · rw [List.find?_cons_of_pos _ (by simp)]
      · have hc : c.phone ∉ d.phone :: seen :=
          dedupeGo_not_mem_seen cs (d.phone :: seen) c h2
        have hne : d.phone ≠ c.phone :=
          fun he => hc (he ▸ List.mem_cons_self _ _)
        rw [List.find?_cons_of_neg _ (by simp [hne])]
        exact dedupeGo_first cs (d.phone :: seen) c h2

lemma dedupeGo_covers : ∀ (l : List Contact) (seen : List String)
    (c : Contact), c ∈ l →
    c.phone ∈ seen ∨ ∃ d ∈ dedupeGo l seen, d.phone = c.phone
  | [], _, _, h => absurd h (List.not_mem_nil _)
  | a :: cs, seen, c, h => by
    by_cases ha : a.phone ∈ seen
    · rw [dedupeGo, if_pos ha]
      rcases List.mem_cons.mp h with rfl | h2
      · exact Or.inl ha
      · exact dedupeGo_covers cs seen c h2
    · rw [dedupeGo, if_neg ha]
      rcases List.mem_cons.mp h with rfl | h2
      · exact Or.inr ⟨c, List.mem_cons_self _ _, rfl⟩
      · rcases dedupeGo_covers cs (a.phone :: seen) c h2 with hs | ⟨d, hd, hph⟩
        · rcases List.mem_cons.mp hs with he | hs2
          · exact Or.inr ⟨a, List.mem_cons_self _ _, he.symm⟩
          · exact Or.inl hs2
        · exact Or.inr ⟨d, List.mem_cons_of_mem _ hd, hph⟩

/- ## Claim C6 -/

/-- C6: the deduplicated output has pairwise distinct `phone` keys; every
retained element is the first element of the input carrying its key; for
every input contact the first input occurrence of its key is actually
retained in the output (so a later duplicate is dropped — even when its
`full_name` differs — but never the whole key); and the output is a sublist
of the input, preserving relative order. -/
theorem C6_dedupe_first_seen (l : List Contact) :
    ((dedupe l).map Contact.phone).Nodup ∧
    (∀ c ∈ dedupe l, l.find? (fun x => x.phone == c.phone) = some c) ∧
    (∀ c ∈ l, ∃ d ∈ dedupe l, d.phone = c.phone ∧
       l.find? (fun x => x.phone == c.phone) = some d) ∧
    (dedupe l).Sublist l := by
  refine ⟨dedupeGo_keys_nodup l [],
    fun c hc => dedupeGo_first l [] c hc, fun c hc => ?_,
    dedupeGo_sublist l []⟩
  rcases dedupeGo_covers l [] c hc with hs | ⟨d, hd, hph⟩
  · exact absurd hs (List.not_mem_nil _)
  · refine ⟨d, hd, hph, ?_⟩
    have hfirst := dedupeGo_first l [] d hd
    rw [hph] at hfirst
    exact hfirst

/-- C6 witness: concrete duplicates with conflicting names; the later
duplicate's key is still covered and its retained element is the first
occurrence. -/
theorem C6_witness :
    ((dedupe [⟨"Alice", "1"⟩, ⟨"Alicia", "1"⟩, ⟨"Bob", "2"⟩]).map
      Contact.phone).Nodup ∧
    [(⟨"Alice", "1"⟩ : Contact), ⟨"Alicia", "1"⟩, ⟨"Bob", "2"⟩].find?
      (fun x => x.phone == "1") = some ⟨"Alice", "1"⟩ ∧
    (∃ d ∈ dedupe [(⟨"Alice", "1"⟩ : Contact), ⟨"Alicia", "1"⟩, ⟨"Bob", "2"⟩],
       d.phone = (⟨"Alicia", "1"⟩ : Contact).phone ∧
       [(⟨"Alice", "1"⟩ : Contact), ⟨"Alicia", "1"⟩, ⟨"Bob", "2"⟩].find?
         (fun x => x.phone == (⟨"Alicia", "1"⟩ : Contact).phone) = some d) ∧
    (dedupe [⟨"Alice", "1"⟩, ⟨"Alicia", "1"⟩, ⟨"Bob", "2"⟩]).Sublist
      [⟨"Alice", "1"⟩, ⟨"Alicia", "1"⟩, ⟨"Bob", "2"⟩] :=
  ⟨(C6_dedupe_first_seen _).1,
   (C6_dedupe_first_seen [⟨"Alice", "1"⟩, ⟨"Alicia", "1"⟩, ⟨"Bob", "2"⟩]).2.1
     ⟨"Alice", "1"⟩ (by decide),
   (C6_dedupe_first_seen [⟨"Alice", "1"⟩, ⟨"Alicia", "1"⟩, ⟨"Bob", "2"⟩]).2.2.1
     ⟨"Alicia", "1"⟩ (by decide),
   (C6_dedupe_first_seen _).2.2.2⟩

/- ## Claim C5 -/

/-- C5: against any snapshot of stored `(phone, full_name)` pairs, a contact
of a key-deduplicated batch goes to `toInsert` exactly when its phone is
absent from the snapshot, goes to `toUpdate` (as a set-name directive)
exactly when its phone is present with a different stored name, and is
emitted to neither list when its phone is present with an equal name. -/
theorem C5_plan_split (cs : List Contact) (ex : List (String × String))
    (c : Contact) (hnd : (cs.map Contact.phone).Nodup) (hc : c ∈ cs) :
    (mapGet ex c.phone = none →
       c ∈ toInsertOf cs ex ∧ ∀ o ∈ toUpdateOf cs ex, o.phone ≠ c.phone) ∧
    (∀ fn, mapGet ex c.phone = some fn →
       (fn ≠ c.full_name →
          (⟨c.phone, c.full_name⟩ : UpdateOp) ∈ toUpdateOf cs ex ∧
            c ∉ toInsertOf cs ex) ∧
       (fn = c.full_name →
          c ∉ toInsertOf cs ex ∧
            ∀ o ∈ toUpdateOf cs ex, o.phone ≠ c.phone)) := by
  have hinj := List.inj_on_of_nodup_map hnd
  have upd_src : ∀ o ∈ toUpdateOf cs ex, ∃ a ∈ cs, ∃ fa,
      mapGet ex a.phone = some fa ∧ fa ≠ a.full_name ∧
      o = (⟨a.phone, a.full_name⟩ : UpdateOp) := by
    intro o ho
    rcases List.mem_filterMap.mp ho with ⟨a, ha, hmk⟩
    rcases hma : mapGet ex a.phone with _ | fa
    · simp only [hma] at hmk
      exact Option.noConfusion hmk
    · simp only [hma] at hmk
      by_cases hfa : fa = a.full_name
      · rw [if_pos hfa] at hmk
        exact absurd hmk (by simp)
      · rw [if_neg hfa] at hmk
        cases hmk
        exact ⟨a, ha, fa, hma, hfa, rfl⟩
  constructor
  · intro hnone
    constructor
    · exact List.mem_filter.mpr ⟨hc, by simp [hnone]⟩
    · intro o ho hph
      rcases upd_src o ho with ⟨a, ha, fa, hma, _, rfl⟩
      have : a = c := hinj ha hc hph
      rw [this, hnone] at hma
      exact Option.noConfusion hma
  · intro fn hsome
    constructor
    · intro hdiff
      constructor
      · exact List.mem_filterMap.mpr ⟨c, hc, by
          simp only [hsome]
          rw [if_neg hdiff]⟩
      · intro hmem
        have := (List.mem_filter.mp hmem).2
        rw [hsome] at this
        simp at this
    · intro heq
      constructor
      · intro hmem
        have := (List.mem_filter.mp hmem).2
        rw [hsome] at this
        simp at this
      · intro o ho hph
        rcases upd_src o ho with ⟨a, ha, fa, hma, hfa, rfl⟩
        have hac : a = c := hinj ha hc hph
        rw [hac, hsome] at hma
        rw [Option.some.injEq] at hma
        exact hfa (by rw [← hma, heq, hac])

/-- C5 witness: concrete batch and snapshot exercising the absent-key and
changed-name cases. -/
theorem C5_witness :
    ((⟨"Bob", "2"⟩ : Contact) ∈
        toInsertOf [⟨"Alice Smith", "1"⟩, ⟨"Bob", "2"⟩] [("1", "Alice")] ∧
      ∀ o ∈ toUpdateOf [⟨"Alice Smith", "1"⟩, ⟨"Bob", "2"⟩] [("1", "Alice")],
        o.phone ≠ "2") ∧
    ((⟨"1", "Alice Smith"⟩ : UpdateOp) ∈
        toUpdateOf [⟨"Alice Smith", "1"⟩, ⟨"Bob", "2"⟩] [("1", "Alice")] ∧
      (⟨"Alice Smith", "1"⟩ : Contact) ∉
        toInsertOf [⟨"Alice Smith", "1"⟩, ⟨"Bob", "2"⟩] [("1", "Alice")]) :=
  ⟨(C5_plan_split [⟨"Alice Smith", "1"⟩, ⟨"Bob", "2"⟩] [("1", "Alice")]
      ⟨"Bob", "2"⟩ (by decide) (by decide)).1 (by decide),
   ((C5_plan_split [⟨"Alice Smith", "1"⟩, ⟨"Bob", "2"⟩] [("1", "Alice")]
      ⟨"Alice Smith", "1"⟩ (by decide) (by decide)).2 "Alice" (by decide)).1
     (by decide)⟩

/- ## Orchestrator lemmas -/

@[simp] lemma writtenLogs_nil : writtenLogs [] = [] := rfl

@[simp] lemma writtenLogs_cons_read (l : List Effect) :
    writtenLogs (Effect.readClients :: l) = writtenLogs l := rfl

@[simp] lemma writtenLogs_cons_ins (d : List Contact) (l : List Effect) :
    writtenLogs (Effect.insertMany d :: l) = writtenLogs l := rfl

@[simp] lemma writtenLogs_cons_upd (o : List UpdateOp) (l : List Effect) :
    writtenLogs (Effect.bulkWriteUpdates o :: l) = writtenLogs l := rfl

@[simp] lemma writtenLogs_cons_log_true (r : SyncLogRec) (l : List Effect) :
    writtenLogs (Effect.logCreate r true :: l) = r :: writtenLogs l := rfl

@[simp] lemma writtenLogs_cons_log_false (r : SyncLogRec) (l : List Effect) :
    writtenLogs (Effect.logCreate r false :: l) = writtenLogs l := rfl

@[simp] lemma writtenLogs_append (a b : List Effect) :
    writtenLogs (a ++ b) = writtenLogs a ++ writtenLogs b :=
  List.filterMap_append a b _

@[simp] lemma failLogAttempts_nil : failLogAttempts [] = [] := rfl

@[simp] lemma failLogAttempts_cons_read (l : List Effect) :
    failLogAttempts (Effect.readClients :: l) = failLogAttempts l := rfl

@[simp] lemma failLogAttempts_cons_ins (d : List Contact) (l : List Effect) :
    failLogAttempts (Effect.insertMany d :: l) = failLogAttempts l := rfl

@[simp] lemma failLogAttempts_cons_upd (o : List UpdateOp) (l : List Effect) :
    failLogAttempts (Effect.bulkWriteUpdates o :: l) = failLogAttempts l := rfl

@[simp] lemma failLogAttempts_cons_log (r : SyncLogRec) (b : Bool)
    (l : List Effect) :
    failLogAttempts (Effect.logCreate r b :: l) =
      if r.success = false then (r, b) :: failLogAttempts l
      else failLogAttempts l := by
  by_cases h : r.success = false <;>
    simp only [failLogAttempts, List.filterMap_cons, h, if_pos, if_neg,
      if_true, if_false, not_false_iff] <;> simp [h]

@[simp] lemma failLogAttempts_append (a b : List Effect) :
    failLogAttempts (a ++ b) = failLogAttempts a ++ failLogAttempts b :=
  List.filterMap_append a b _

lemma writtenLogs_runCore (contacts : List Contact) (env : Env) :
    writtenLogs (runCore contacts env).1 = [] := by
  unfold runCore
  rcases env.findRes with msg | ex
  · simp
  · simp only
    split
    · split <;> simp
    · split
      · split <;> split <;> simp
      · split <;> split <;> simp

lemma failLogAttempts_runCore (contacts : List Contact) (env : Env) :
    failLogAttempts (runCore contacts env).1 = [] := by
  unfold runCore
  rcases env.findRes with msg | ex
  · simp
  · simp only
    split
    · split <;> simp
    · split
      · split <;> split <;> simp
      · split <;> split <;> simp

@[simp] lemma successRec_success (contacts : List Contact) (i u : Nat) :
    (successRec contacts i u).success = true := rfl

@[simp] lemma failRec_success (contacts : List Contact) (msg : String) :
    (failRec contacts msg).success = false := rfl

lemma writtenLogs_failLog (contacts : List Contact) (env : Env) (msg : String) :
    writtenLogs (failLog contacts env msg) =
      if env.logFailRes = none then [failRec contacts msg] else [] := by
  unfold failLog
  rcases env.logFailRes with _ | m <;> simp

lemma failLogAttempts_failLog (contacts : List Contact) (env : Env)
    (msg : String) :
    failLogAttempts (failLog contacts env msg) =
      [(failRec contacts msg, env.logFailRes.isNone)] := by
  unfold failLog
  rcases env.logFailRes with _ | m <;> simp

lemma syncToMongo_of_err (contacts : List Contact) (env : Env) (msg : String)
    (h0 : contacts ≠ [])
    (hc : (runCore contacts env).2 = Except.error msg) :
    syncToMongo contacts env = (runCore contacts env).1 ++ failLog contacts env msg := by
  have hlen : ¬ contacts.length = 0 := by
    simpa [List.length_eq_zero] using h0
  rcases h : runCore contacts env with ⟨effs, res⟩
  rw [h] at hc
  simp only at hc
  subst hc
  simp [syncToMongo, h, hlen]

lemma syncToMongo_of_ok (contacts : List Contact) (env : Env) (i u : Nat)
    (h0 : contacts ≠ [])
    (hc : (runCore contacts env).2 = Except.ok (i, u))
    (hl : env.logOkRes = none) :
    syncToMongo contacts env =
      (runCore contacts env).1 ++
        [Effect.logCreate (successRec contacts i u) true] := by
  have hlen : ¬ contacts.length = 0 := by
    simpa [List.length_eq_zero] using h0
  rcases h : runCore contacts env with ⟨effs, res⟩
  rw [h] at hc
  simp only at hc
  subst hc
  simp [syncToMongo, h, hlen, hl]

lemma syncToMongo_of_ok_logfail (contacts : List Contact) (env : Env)
    (i u : Nat) (msg : String) (h0 : contacts ≠ [])
    (hc : (runCore contacts env).2 = Except.ok (i, u))
    (hl : env.logOkRes = some msg) :
    syncToMongo contacts env =
      (runCore contacts env).1 ++
        Effect.logCreate (successRec contacts i u) false ::
          failLog contacts env msg := by
  have hlen : ¬ contacts.length = 0 := by
    simpa [List.length_eq_zero] using h0
  rcases h : runCore contacts env with ⟨effs, res⟩
  rw [h] at hc
  simp only at hc
  subst hc
  simp [syncToMongo, h, hlen, hl]

lemma runCore_snd (contacts : List Contact) (env : Env)
    (ex : List (String × String)) (hf : env.findRes = Except.ok ex) :
    (runCore contacts env).2 =
      (insertStep (toInsertOf (dedupe contacts) ex) env.insertRes).bind
        (fun i =>
          (updateStep (toUpdateOf (dedupe contacts) ex) env.updateRes).map
            (fun u => (i, u))) := by
  unfold runCore
  simp only [hf]
  rcases insertStep (toInsertOf (dedupe contacts) ex) env.insertRes with m | i
  · simp [Except.bind]
  · rcases updateStep (toUpdateOf (dedupe contacts) ex) env.updateRes with m | u
    · simp [Except.bind, Except.map]
    · simp [Except.bind, Except.map]

lemma runCore_err_of_find (contacts : List Contact) (env : Env) (msg : String)
    (hf : env.findRes = Except.error msg) :
    (runCore contacts env).2 = Except.error msg := by
  unfold runCore
  simp only [hf]

lemma insertStep_le (toIns : List Contact) (res : InsertOutcome) (i : Nat)
    (h : insertStep toIns res = Except.ok i)
    (hb : ∀ c j m, res = InsertOutcome.errRes c (some j) m → j ≤ toIns.length) :
    i ≤ toIns.length := by
  unfold insertStep at h
  by_cases hemp : toIns.isEmpty
  · rw [if_pos hemp] at h
    cases h
    exact Nat.zero_le _
  · rw [if_neg hemp] at h
    rcases res with _ | ⟨code, docs, msg⟩
    · dsimp only at h
      cases h
      exact Nat.le_refl _
    · rcases docs with _ | j
      · dsimp only at h
        simp at h
      · dsimp only at h
        by_cases hcode : code = 11000
        · rw [if_pos hcode] at h
          cases h
          exact hb code _ msg rfl
        · rw [if_neg hcode] at h
          simp at h

lemma updateStep_le (toUpd : List UpdateOp) (res : UpdateOutcome) (u : Nat)
    (h : updateStep toUpd res = Except.ok u)
    (hb : ∀ n, res = UpdateOutcome.ok n → n ≤ toUpd.length) :
    u ≤ toUpd.length := by
  unfold updateStep at h
  split at h
  · cases h
    exact Nat.zero_le _
  · rcases res with n | msg
    · cases h
      exact hb u rfl
    · exact Except.noConfusion h

lemma plan_length_le (ex : List (String × String)) : ∀ (uniq : List Contact),
    (toInsertOf uniq ex).length + (toUpdateOf uniq ex).length ≤ uniq.length
  | [] => by simp [toInsertOf, toUpdateOf]
  | c :: cs => by
    have ih := plan_length_le ex cs
    rcases h : mapGet ex c.phone with _ | fn
    · simp only [toInsertOf, toUpdateOf, List.filter_cons, List.filterMap_cons,
        h, Option.isNone_none, if_true, List.length_cons] at *
      omega
    · by_cases hfn : fn = c.full_name <;>
        simp only [toInsertOf, toUpdateOf, List.filter_cons,
          List.filterMap_cons, h, Option.isNone_some, Bool.false_eq_true,
          if_false, hfn, if_pos, if_neg, List.length_cons, ite_true,
          ite_false, not_false_iff] at * <;>
      · first
        | omega
        | (rw [if_neg hfn]; simp only [List.length_cons]; omega)

lemma dedupe_length_le (l : List Contact) : (dedupe l).length ≤ l.length :=
  (dedupeGo_sublist l []).length_le

lemma runCore_ok_counts (contacts : List Contact) (env : Env) (i u : Nat)
    (hv : envValidB contacts env = true)
    (hc : (runCore contacts env).2 = Except.ok (i, u)) :
    i + u ≤ contacts.length := by
  rcases hf : env.findRes with msg | ex
  · rw [runCore_err_of_find contacts env msg hf] at hc
    exact Except.noConfusion hc
  · rw [runCore_snd contacts env ex hf] at hc
    rcases hins : insertStep (toInsertOf (dedupe contacts) ex) env.insertRes
      with m | i'
    · rw [hins] at hc
      exact Except.noConfusion hc
    · rcases hupd : updateStep (toUpdateOf (dedupe contacts) ex) env.updateRes
        with m | u'
      · rw [hins, hupd] at hc
        exact Except.noConfusion hc
      · rw [hins, hupd] at hc
        simp only [Except.bind, Except.map, Except.ok.injEq, Prod.mk.injEq] at hc
        obtain ⟨hi, hu⟩ := hc
        unfold envValidB at hv
        rw [hf] at hv
        rw [Bool.and_eq_true] at hv
        have h1 : i' ≤ (toInsertOf (dedupe contacts) ex).length := by
          apply insertStep_le _ _ _ hins
          intro c j m hres
          rw [hres] at hv
          exact Nat.le_of_ble_eq_true hv.1
        have h2 : u' ≤ (toUpdateOf (dedupe contacts) ex).length := by
          apply updateStep_le _ _ _ hupd
          intro n hres
          rw [hres] at hv
          exact Nat.le_of_ble_eq_true hv.2
        have h3 := plan_length_le ex (dedupe contacts)
        have h4 := dedupe_length_le contacts
        omega

/- ## Claims C1-C4 and C10 -/

/-- C1 counterexample: with a duplicated input key, the recorded counts sum
to the pre-dedup total (2), not to `total_unique` (1): the source computes
`skipped` from `contacts.length`, which still includes duplicates. -/
theorem C1_counterexample :
    writtenLogs (syncToMongo [⟨"Alice", "1"⟩, ⟨"Alicia", "1"⟩]
        ⟨Except.ok [], InsertOutcome.ok, UpdateOutcome.ok 0, none, none⟩) =
      [{ total_contacts := 2, inserted := 1, updated := 0, skipped := 1,
         success := true, error_message := none }] ∧
    (dedupe [(⟨"Alice", "1"⟩ : Contact), ⟨"Alicia", "1"⟩]).length = 1 ∧
    (1 : Int) + 0 + 1 ≠
      ((dedupe [(⟨"Alice", "1"⟩ : Contact), ⟨"Alicia", "1"⟩]).length : Int) :=
  ⟨by decide, by decide, by decide⟩

/-- C1 (amended): after every successful run (assuming the driver-contract
bounds `envValidB`), the recorded counts satisfy
`inserted + updated + skipped = total_contacts`, where `total_contacts` is
the number of contacts *before* deduplication (total seen, not
`total_unique`), and the derived `skipped` is non-negative. -/
theorem C1_success_sum (contacts : List Contact) (env : Env) (i u : Nat)
    (h0 : contacts ≠ [])
    (hv : envValidB contacts env = true)
    (hc : (runCore contacts env).2 = Except.ok (i, u))
    (hl : env.logOkRes = none) :
    writtenLogs (syncToMongo contacts env) = [successRec contacts i u] ∧
    ((successRec contacts i u).inserted : Int) +
        ((successRec contacts i u).updated : Int) +
        (successRec contacts i u).skipped =
      ((successRec contacts i u).total_contacts : Int) ∧
    0 ≤ (successRec contacts i u).skipped ∧
    (successRec contacts i u).success = true := by
  have hb := runCore_ok_counts contacts env i u hv hc
  refine ⟨?_, ?_, ?_, rfl⟩
  · rw [syncToMongo_of_ok contacts env i u h0 hc hl]
    rw [writtenLogs_append, writtenLogs_runCore]
    rfl
  · simp only [successRec]
    push_cast
    ring
  · simp only [successRec]
    omega

/-- C1 witness: a singleton run whose success record is written with a
non-negative skipped count. -/
theorem C1_witness :
    writtenLogs (syncToMongo [(⟨"Alice", "1"⟩ : Contact)]
        ⟨Except.ok [], InsertOutcome.ok, UpdateOutcome.ok 0, none, none⟩) =
      [successRec [⟨"Alice", "1"⟩] 1 0] ∧
    0 ≤ (successRec [(⟨"Alice", "1"⟩ : Contact)] 1 0).skipped :=
  ⟨(C1_success_sum [⟨"Alice", "1"⟩]
      ⟨Except.ok [], InsertOutcome.ok, UpdateOutcome.ok 0, none, none⟩ 1 0
      (by decide) (by decide) (by rfl) rfl).1,
   (C1_success_sum [⟨"Alice", "1"⟩]
      ⟨Except.ok [], InsertOutcome.ok, UpdateOutcome.ok 0, none, none⟩ 1 0
      (by decide) (by decide) (by rfl) rfl).2.2.1⟩

/-- C2 counterexample: a fetch loop that fails after one record was already
fetched and parsed writes no SyncOutcome at all, although parsing had begun
and a later step failed — the single `catch` in `fetchContacts` only logs. -/
theorem C2_counterexample :
    fetchContacts (FetchOutcome.failDuring ["FN:Alice\nTEL:555"] "network lost")
        ⟨Except.ok [], InsertOutcome.ok, UpdateOutcome.ok 0, none, none⟩ = [] ∧
    parseVCard "FN:Alice\nTEL:555" = some ⟨"Alice", "555"⟩ :=
  ⟨rfl, by decide⟩

/-- C2 (amended): any failure inside the fetch loop — before or after
records were parsed — writes no SyncOutcome; only once `syncToMongo` starts
on a non-empty parsed batch does a failing step lead to a SyncOutcome with
`success = false`, zeroed counts and the failure's message (written when
the audit write itself succeeds). -/
theorem C2_fetch_failures (env : Env) :
    (∀ msg, fetchContacts (FetchOutcome.failBeforeData msg) env = []) ∧
    (∀ raws msg, fetchContacts (FetchOutcome.failDuring raws msg) env = []) ∧
    (∀ (raws : List String) (msg : String),
       raws.filterMap parseVCard ≠ [] →
       (runCore (raws.filterMap parseVCard) env).2 = Except.error msg →
       env.logFailRes = none →
       writtenLogs (fetchContacts (FetchOutcome.ok raws) env) =
         [failRec (raws.filterMap parseVCard) msg]) := by
  refine ⟨fun msg => rfl, fun raws msg => rfl, fun raws msg hne hc hl => ?_⟩
  show writtenLogs (syncToMongo (raws.filterMap parseVCard) env) = _
  rw [syncToMongo_of_err _ env msg hne hc]
  rw [writtenLogs_append, writtenLogs_runCore, writtenLogs_failLog]
  simp [hl]

/-- C2 witness: a full fetch followed by a store-read failure writes the
single failure record. -/
theorem C2_witness :
    writtenLogs (fetchContacts (FetchOutcome.ok ["FN:Alice\nTEL:555"])
        ⟨Except.error "db down", InsertOutcome.ok, UpdateOutcome.ok 0,
          none, none⟩) =
      [failRec (["FN:Alice\nTEL:555"].filterMap parseVCard) "db down"] :=
  (C2_fetch_failures
      ⟨Except.error "db down", InsertOutcome.ok, UpdateOutcome.ok 0,
        none, none⟩).2.2
    ["FN:Alice\nTEL:555"] "db down" (by decide) (by rfl) rfl

/-- C3: a duplicate-key bulk-insert failure (code 11000 with the
`insertedDocs` array present) is recovered: the run continues with the
recovered inserted count and its SyncOutcome records success; any other
insert failure propagates and the run is recorded as failed. -/
theorem C3_dup_key_recovery (contacts : List Contact) (env : Env)
    (ex : List (String × String)) (k u : Nat) (msg : String)
    (h0 : contacts ≠ [])
    (hf : env.findRes = Except.ok ex)
    (hins : toInsertOf (dedupe contacts) ex ≠ [])
    (hupd : updateStep (toUpdateOf (dedupe contacts) ex) env.updateRes =
      Except.ok u)
    (hlog : env.logOkRes = none) :
    (env.insertRes = InsertOutcome.errRes 11000 (some k) msg →
       (runCore contacts env).2 = Except.ok (k, u) ∧
       writtenLogs (syncToMongo contacts env) = [successRec contacts k u] ∧
       (successRec contacts k u).success = true ∧
       (successRec contacts k u).inserted = k) ∧
    (∀ code docs msg2, env.insertRes = InsertOutcome.errRes code docs msg2 →
       (code = 11000 → docs = none) →
       (runCore contacts env).2 = Except.error msg2 ∧
       (env.logFailRes = none →
          writtenLogs (syncToMongo contacts env) = [failRec contacts msg2])) := by
  have hne : ¬ (toInsertOf (dedupe contacts) ex).isEmpty = true := by
    simpa [List.isEmpty_iff] using hins
  constructor
  · intro hi
    have hstep : insertStep (toInsertOf (dedupe contacts) ex) env.insertRes =
        Except.ok k := by
      unfold insertStep
      rw [if_neg hne, hi]
      dsimp only
      rw [if_pos rfl]
    have hc : (runCore contacts env).2 = Except.ok (k, u) := by
      rw [runCore_snd contacts env ex hf, hstep, hupd]
      rfl
    refine ⟨hc, ?_, rfl, rfl⟩
    rw [syncToMongo_of_ok contacts env k u h0 hc hlog]
    rw [writtenLogs_append, writtenLogs_runCore]
    rfl
  · intro code docs msg2 hi hnd
    have hstep : insertStep (toInsertOf (dedupe contacts) ex) env.insertRes =
        Except.error msg2 := by
      unfold insertStep
      rw [if_neg hne, hi]
      rcases docs with _ | j
      · rfl
      · dsimp only
        rw [if_neg (fun hcode => Option.noConfusion (hnd hcode))]
    have hc : (runCore contacts env).2 = Except.error msg2 := by
      rw [runCore_snd contacts env ex hf, hstep]
      rfl
    refine ⟨hc, fun hfl => ?_⟩
    rw [syncToMongo_of_err contacts env msg2 h0 hc]
    rw [writtenLogs_append, writtenLogs_runCore, writtenLogs_failLog]
    simp [hfl]

/-- C3 witness (scenario D): three inserts race with one existing key; the
driver reports 11000 with two inserted docs; the run records success with
`inserted = 2`. -/
theorem C3_witness :
    (runCore [(⟨"A", "1"⟩ : Contact), ⟨"B", "2"⟩, ⟨"C", "3"⟩]
        ⟨Except.ok [], InsertOutcome.errRes 11000 (some 2) "dup",
          UpdateOutcome.ok 0, none, none⟩).2 = Except.ok (2, 0) ∧
    writtenLogs (syncToMongo [(⟨"A", "1"⟩ : Contact), ⟨"B", "2"⟩, ⟨"C", "3"⟩]
        ⟨Except.ok [], InsertOutcome.errRes 11000 (some 2) "dup",
          UpdateOutcome.ok 0, none, none⟩) =
      [successRec [⟨"A", "1"⟩, ⟨"B", "2"⟩, ⟨"C", "3"⟩] 2 0] ∧
    (successRec [(⟨"A", "1"⟩ : Contact), ⟨"B", "2"⟩, ⟨"C", "3"⟩] 2 0).success =
      true ∧
    (successRec [(⟨"A", "1"⟩ : Contact), ⟨"B", "2"⟩, ⟨"C", "3"⟩] 2 0).inserted =
      2 :=
  (C3_dup_key_recovery [⟨"A", "1"⟩, ⟨"B", "2"⟩, ⟨"C", "3"⟩]
      ⟨Except.ok [], InsertOutcome.errRes 11000 (some 2) "dup",
        UpdateOutcome.ok 0, none, none⟩ [] 2 0 "dup"
      (by decide) rfl (by decide) (by rfl) rfl).1 rfl

/-- C4: a run failing anywhere from the snapshot read onward (or whose
success-record audit write throws) attempts exactly one failure SyncOutcome
carrying zeroed counts and the captured message; the record is persisted
precisely when that guarded write succeeds, and a failing guarded write is
swallowed (no further effect, nothing propagates). -/
theorem C4_failure_audit (contacts : List Contact) (env : Env) (msg : String)
    (h0 : contacts ≠ [])
    (hfail : (runCore contacts env).2 = Except.error msg ∨
      ((∃ i u, (runCore contacts env).2 = Except.ok (i, u)) ∧
        env.logOkRes = some msg)) :
    failLogAttempts (syncToMongo contacts env) =
      [(failRec contacts msg, env.logFailRes.isNone)] ∧
    (env.logFailRes = none →
       writtenLogs (syncToMongo contacts env) = [failRec contacts msg]) ∧
    (∀ m2, env.logFailRes = some m2 →
       writtenLogs (syncToMongo contacts env) = []) := by
  rcases hfail with hc | ⟨⟨i, u, hc⟩, hl⟩
  · rw [syncToMongo_of_err contacts env msg h0 hc]
    refine ⟨?_, fun hfl => ?_, fun m2 hfl => ?_⟩
    · rw [failLogAttempts_append, failLogAttempts_runCore,
        failLogAttempts_failLog]
      rfl
    · rw [writtenLogs_append, writtenLogs_runCore, writtenLogs_failLog]
      simp [hfl]
    · rw [writtenLogs_append, writtenLogs_runCore, writtenLogs_failLog]
      simp [hfl]
  · rw [syncToMongo_of_ok_logfail contacts env i u msg h0 hc hl]
    refine ⟨?_, fun hfl => ?_, fun m2 hfl => ?_⟩
    · rw [failLogAttempts_append, failLogAttempts_runCore]
      simp [failLogAttempts_failLog]
    · rw [writtenLogs_append, writtenLogs_runCore]
      simp [writtenLogs_failLog, hfl]
    · rw [writtenLogs_append, writtenLogs_runCore]
      simp [writtenLogs_failLog, hfl]

/-- C4 witness: a failed snapshot read leads to exactly one persisted
failure record. -/
theorem C4_witness :
    failLogAttempts (syncToMongo [(⟨"Alice", "1"⟩ : Contact)]
        ⟨Except.error "db down", InsertOutcome.ok, UpdateOutcome.ok 0,
          none, none⟩) =
      [(failRec [⟨"Alice", "1"⟩] "db down", true)] ∧
    writtenLogs (syncToMongo [(⟨"Alice", "1"⟩ : Contact)]
        ⟨Except.error "db down", InsertOutcome.ok, UpdateOutcome.ok 0,
          none, none⟩) = [failRec [⟨"Alice", "1"⟩] "db down"] :=
  ⟨(C4_failure_audit [⟨"Alice", "1"⟩]
      ⟨Except.error "db down", InsertOutcome.ok, UpdateOutcome.ok 0,
        none, none⟩ "db down" (by decide) (Or.inl rfl)).1,
   (C4_failure_audit [⟨"Alice", "1"⟩]
      ⟨Except.error "db down", InsertOutcome.ok, UpdateOutcome.ok 0,
        none, none⟩ "db down" (by decide) (Or.inl rfl)).2.1 rfl⟩

/-- C10: with an empty parsed contact list, `syncToMongo` returns before
doing anything: no snapshot read, no bulk write and no SyncOutcome creation —
the effect trace is empty for every environment. -/
theorem C10_empty_no_effects (env : Env) : syncToMongo [] env = [] := rfl
